import Mathlib

/-!
Shallow embedding of the Optuna/Tune example notebook
(`doc/source/tune/examples/optuna_example.ipynb`) and of the
SearchCoordinator component its specification describes.

Numbers are modelled as exact rationals.  Python code that can raise an
exception is embedded with `Option`/`Except`.
-/

namespace Tune

/-- A parameter or metric value: either a string or a number. -/
inductive Val
  | str (s : String)
  | num (q : ℚ)
deriving DecidableEq

/-- A parameter assignment: ordered mapping from parameter name to value. -/
abbrev Assignment := List (String × Val)

/-- A metric report: mapping from metric name to a numeric value. -/
abbrev MetricMap := List (String × ℚ)

/-- Embedding of the notebook's `evaluate` function:
`(0.1 + width * step / 100) ** (-1) + height * 0.1 + activation_boost`
where `activation_boost` is `10` when `activation == "relu"` and `0` otherwise.
In Python, `x ** (-1)` raises `ZeroDivisionError` when the base is zero, so the
embedding returns `none` exactly in that case. -/
def evaluate (step width height : ℚ) (activation : String) : Option ℚ :=
  if (1/10 + width * step / 100 : ℚ) = 0 then none
  else some ((1/10 + width * step / 100)⁻¹ + height * (1/10) +
    (if activation = "relu" then 10 else 0))

/-- One pass of the notebook's `objective` loop starting at step `step` with
`n` iterations left: returns the list of `(iterations, mean_loss)` reports
emitted by `session.report` together with a flag that is `true` when an
`evaluate` call raised (aborting the loop). -/
def objectiveLoop (width height : ℚ) (activation : String) : Nat → Nat → List (Nat × ℚ) × Bool
  | 0, _ => ([], false)
  | n + 1, step =>
    match evaluate (step : ℚ) width height activation with
    | none => ([], true)
    | some score =>
      let rest := objectiveLoop width height activation n (step + 1)
      ((step, score) :: rest.1, rest.2)

/-- Embedding of the notebook's `objective` trainable:
`for step in range(config["steps"]): score = evaluate(step, width, height, activation);
session.report({"iterations": step, "mean_loss": score})`. -/
def objectiveRun (steps : Nat) (width height : ℚ) (activation : String) :
    List (Nat × ℚ) × Bool :=
  objectiveLoop width height activation steps 0

/-- Trial lifecycle status (spec §3: pending, running, completed, errored). -/
inductive Status
  | pending
  | running
  | completed
  | errored
deriving DecidableEq

/-- Whether a status is terminal. -/
def Status.isTerminal : Status → Bool
  | .completed => true
  | .errored => true
  | _ => false

/-- Terminal outcome accepted by `complete` (spec §4.1: {completed, errored}). -/
inductive Outcome
  | completed
  | errored
deriving DecidableEq

def Outcome.toStatus : Outcome → Status
  | .completed => .completed
  | .errored => .errored

/-- Optimization direction of one objective (spec §3: minimize/maximize). -/
inductive Dir
  | minimize
  | maximize
deriving DecidableEq

/-- Modelled from the spec (§3): a trial is an identifier, its parameter
assignment, its lifecycle status, and the ordered sequence of metric reports
it has emitted. -/
structure TrialRec where
  id : Nat
  assignment : Assignment
  status : Status
  reports : List MetricMap
deriving DecidableEq

/-- Modelled from the spec (§6): construction-time configuration of the
SearchCoordinator — the ConcurrencyBudget, the ObjectiveSpec, an optional
ordered list of initial parameter assignments, and the underlying optimization
strategy, modelled as a stream of optional suggestions (`none` = exhausted). -/
structure Config where
  budget : Nat
  objectives : List (String × Dir)
  initPoints : List Assignment
  strategy : Nat → Option Assignment

/-- Modelled from the spec (§4.1): the coordinator's state — the trial table
(in creation order), the not-yet-drained initial-points queue, how many
strategy suggestions have been consumed, and the best-value tracker, one
incumbent `(value, assignment)` per configured (metric, direction) pair. -/
structure State where
  cfg : Config
  trials : List TrialRec
  initRemaining : List Assignment
  stratIdx : Nat
  best : List ((String × Dir) × ℚ × Assignment)

/-- Fresh coordinator, as constructed (spec §4.1). -/
def State.init (cfg : Config) : State :=
  { cfg := cfg, trials := [], initRemaining := cfg.initPoints, stratIdx := 0,
    best := [] }

/-- Number of trials currently in "running" state. -/
def runningCount (s : State) : Nat :=
  s.trials.countP fun t => decide (t.status = .running)

def freshId (s : State) : Nat := s.trials.length

/-- Register a new running trial with assignment `a`. -/
def addTrial (s : State) (a : Assignment) : State :=
  { s with
    trials := s.trials ++
      [{ id := freshId s, assignment := a, status := .running, reports := [] }] }

/-- Modelled from the spec (§4.1): `suggest` is refused (returns `None`,
leaving the state unchanged) when `running_count >= budget` or when the
strategy is exhausted; otherwise it drains the initial-points queue strictly
before invoking the underlying strategy, and registers a new running trial. -/
def suggest (s : State) : Option (Nat × Assignment) × State :=
  if s.cfg.budget ≤ runningCount s then (none, s)
  else
    match s.initRemaining with
    | a :: rest => (some (freshId s, a), { addTrial s a with initRemaining := rest })
    | [] =>
      match s.cfg.strategy s.stratIdx with
      | none => (none, s)
      | some a => (some (freshId s, a), { addTrial s a with stratIdx := s.stratIdx + 1 })

/-- Error raised by `report`/`complete` on an id never issued by `suggest`
(spec §7). -/
inductive Err
  | unknownTrial
deriving DecidableEq

/-- Look up a trial by id.  Trials are never removed from the table, so for
reachable states `none` means the id was never issued by `suggest`. -/
def findTrial (s : State) (tid : Nat) : Option TrialRec :=
  s.trials.find? fun t => decide (t.id = tid)

/-- Strict improvement in the objective's direction (spec §4.1: "replacing the
incumbent only if the new value strictly improves per that objective's
direction"). -/
def improves : Dir → ℚ → ℚ → Bool
  | .minimize, v, v0 => decide (v < v0)
  | .maximize, v, v0 => decide (v0 < v)

def bestLookup (b : List ((String × Dir) × ℚ × Assignment)) (m : String) (d : Dir) :
    Option (ℚ × Assignment) :=
  (b.find? fun e => decide (e.1 = (m, d))).map fun e => e.2

/-- Update the incumbent of one objective with a newly reported value:
first value is adopted; afterwards the incumbent is replaced only on strict
improvement, so ties keep the earlier incumbent (earliest-found-wins). -/
def updateBest1 (b : List ((String × Dir) × ℚ × Assignment)) (m : String) (d : Dir)
    (v : ℚ) (a : Assignment) : List ((String × Dir) × ℚ × Assignment) :=
  match bestLookup b m d with
  | none => b ++ [((m, d), v, a)]
  | some (v0, _) =>
    if improves d v v0 then
      b.map fun e => if e.1 = (m, d) then ((m, d), v, a) else e
    else b

def metricLookup (metrics : MetricMap) (m : String) : Option ℚ :=
  (metrics.find? fun e => decide (e.1 = m)).map fun e => e.2

/-- Update the best tracker for every configured objective present in the
report (partial reports are allowed, spec §7). -/
def updateBest (b : List ((String × Dir) × ℚ × Assignment))
    (objectives : List (String × Dir)) (metrics : MetricMap) (a : Assignment) :
    List ((String × Dir) × ℚ × Assignment) :=
  objectives.foldl
    (fun acc md =>
      match metricLookup metrics md.1 with
      | none => acc
      | some v => updateBest1 acc md.1 md.2 v a)
    b

/-- Modelled from the spec (§4.1): `report` records a metric report for a
trial and updates the best-value tracker; it fails with `UnknownTrialError`
for an id never issued by `suggest`, leaving the state unchanged. -/
def report (s : State) (tid : Nat) (metrics : MetricMap) : Except Err State :=
  match findTrial s tid with
  | none => .error .unknownTrial
  | some t =>
    .ok { s with
      trials := s.trials.map fun u =>
        if u.id = tid then { u with reports := u.reports ++ [metrics] } else u,
      best := updateBest s.best s.cfg.objectives metrics t.assignment }

/-- Modelled from the spec (§4.1): `complete` marks a trial terminal, freeing
one concurrency slot; it is a no-op on an already-terminal trial and fails
with `UnknownTrialError` for unrecognized ids. -/
def complete (s : State) (tid : Nat) (o : Outcome) : Except Err State :=
  match findTrial s tid with
  | none => .error .unknownTrial
  | some t =>
    if t.status.isTerminal then .ok s
    else
      .ok { s with
        trials := s.trials.map fun u =>
          if u.id = tid then { u with status := o.toStatus } else u }

/-- Modelled from the spec (§4.1): `best` returns the parameter assignment of
the best trial seen so far for the given metric/direction pair, or `None` if
no trial has reported that metric yet. -/
def best (s : State) (m : String) (d : Dir) : Option Assignment :=
  (bestLookup s.best m d).map fun p => p.2

/-- Trial fitness: spec §3 ("only the latest … determines trial fitness") and
§9 ("this spec assumes final report wins"). -/
def fitnessOf (t : TrialRec) : MetricMap := t.reports.getLast?.getD []

def weaklyBetter (d : Dir) (x y : ℚ) : Bool :=
  match d with
  | .minimize => decide (x ≤ y)
  | .maximize => decide (y ≤ x)

def strictlyBetter (d : Dir) (x y : ℚ) : Bool :=
  match d with
  | .minimize => decide (x < y)
  | .maximize => decide (y < x)

/-- Domination, as the claim states it: A dominates B iff A is
less-or-equal on every minimize objective and greater-or-equal on every
maximize objective, with at least one strict inequality. -/
def dominates (objs : List (String × Dir)) (fa fb : MetricMap) : Bool :=
  (objs.all fun md =>
    match metricLookup fa md.1, metricLookup fb md.1 with
    | some x, some y => weaklyBetter md.2 x y
    | _, _ => false) &&
  (objs.any fun md =>
    match metricLookup fa md.1, metricLookup fb md.1 with
    | some x, some y => strictlyBetter md.2 x y
    | _, _ => false)

/-- Modelled from the spec (§4.1): the Pareto-front query returns the set of
trials not dominated by any other trial. -/
def paretoFront (s : State) : List TrialRec :=
  s.trials.filter fun t =>
    ! s.trials.any fun u =>
      decide (¬ u.id = t.id) && dominates s.cfg.objectives (fitnessOf u) (fitnessOf t)

/-- One call into the coordinator from the execution engine. -/
inductive Op
  | suggest
  | report (tid : Nat) (metrics : MetricMap)
  | complete (tid : Nat) (o : Outcome)

def Op.isComplete : Op → Bool
  | .complete _ _ => true
  | _ => false

/-- Apply one call; a raised `UnknownTrialError` leaves the caller's state
unchanged. -/
def stepOp (s : State) (op : Op) : State :=
  match op with
  | .suggest => (suggest s).2
  | .report tid metrics =>
    match report s tid metrics with
    | .ok s1 => s1
    | .error _ => s
  | .complete tid o =>
    match complete s tid o with
    | .ok s1 => s1
    | .error _ => s

/-- Apply a sequence of calls. -/
def run (s : State) (ops : List Op) : State := ops.foldl stepOp s

def cfgA : Config :=
  { budget := 2, objectives := [("m", .minimize)], initPoints := [],
    strategy := fun i => some [("p", Val.num i)] }

/-- The assignments issued by successful `suggest` calls, in issue order
(trials are created in order, one per successful `suggest`). -/
def issued (s : State) : List Assignment := s.trials.map fun t => t.assignment

/-- The run-time invariant behind FIFO draining of the initial-points queue:
some prefix of length `k` of the queue has been issued; the queue's remainder
is its drop; issued assignments are exactly that prefix followed by the
strategy's outputs; and the strategy has been consulted only once the whole
queue was drained. -/
def InvFIFO (cfg : Config) (s : State) : Prop :=
  s.cfg = cfg ∧
  ∃ k, k ≤ cfg.initPoints.length ∧
    s.initRemaining = cfg.initPoints.drop k ∧
    issued s = cfg.initPoints.take k ++ (List.range s.stratIdx).filterMap cfg.strategy ∧
    (∀ i, i < s.stratIdx → (cfg.strategy i).isSome = true) ∧
    (s.stratIdx ≠ 0 → k = cfg.initPoints.length)

def cfgB : Config :=
  { budget := 1, objectives := [("m", .minimize)],
    initPoints := [[("p", Val.num 7)], [("p", Val.num 8)]],
    strategy := fun i => some [("p", Val.num i)] }

def c4s0 : State := run (State.init cfgA) [.suggest]

def c4s1 : State :=
  match complete c4s0 0 .completed with
  | .ok s1 => s1
  | .error _ => c4s0

def cfgD : Config :=
  { budget := 3, objectives := [("loss", .minimize), ("gain", .maximize)],
    initPoints := [], strategy := fun i => some [("p", Val.num i)] }

/-- The run of the claim's multi-objective scenario: three trials whose
recorded fitness values are (loss=1, gain=5), (loss=2, gain=9) and
(loss=0.5, gain=1). -/
def sD : State := run (State.init cfgD)
  [.suggest, .suggest, .suggest,
   .report 0 [("loss", 1), ("gain", 5)],
   .report 1 [("loss", 2), ("gain", 9)],
   .report 2 [("loss", 1/2), ("gain", 1)],
   .complete 0 .completed, .complete 1 .completed, .complete 2 .completed]

/-- Modelled from the spec: the underlying optimizer serving one define-by-run
invocation, as a deterministic oracle answering each parameter request. -/
structure Oracle where
  pickCat : String → List String → String
  pickFloat : String → ℚ → ℚ → ℚ

/-- The optimizer's contract: a categorical suggestion is one of the offered
choices; a float suggestion lies within the requested bounds. -/
def OracleValid (o : Oracle) : Prop :=
  (∀ n cs, cs ≠ [] → o.pickCat n cs ∈ cs) ∧
  (∀ (n : String) (lo hi : ℚ), lo ≤ hi →
    lo ≤ o.pickFloat n lo hi ∧ o.pickFloat n lo hi ≤ hi)

/-- Modelled from the spec (§4.1): the fresh "trial handle" passed to the
define-by-run function records each parameter request in declaration order. -/
structure Handle where
  oracle : Oracle
  recorded : Assignment

def Handle.suggest_categorical (h : Handle) (n : String) (cs : List String) :
    String × Handle :=
  (h.oracle.pickCat n cs,
    { h with recorded := h.recorded ++ [(n, Val.str (h.oracle.pickCat n cs))] })

def Handle.suggest_float (h : Handle) (n : String) (lo hi : ℚ) : ℚ × Handle :=
  (h.oracle.pickFloat n lo hi,
    { h with recorded := h.recorded ++ [(n, Val.num (h.oracle.pickFloat n lo hi))] })

/-- Embedding of the notebook's `define_by_run_func`: suggest the categorical
"activation" from ["relu", "tanh"]; if it is "relu" suggest width in [0, 20]
and height in [-100, 100], otherwise width in [-1, 21] and height in
[-101, 101]; return the constants {"steps": 100}. -/
def define_by_run_func (t : Handle) : Option Assignment × Handle :=
  (some [("steps", Val.num 100)],
    if (t.suggest_categorical "activation" ["relu", "tanh"]).1 = "relu" then
      (((t.suggest_categorical "activation" ["relu", "tanh"]).2.suggest_float
        "width" 0 20).2.suggest_float "height" (-100) 100).2
    else
      (((t.suggest_categorical "activation" ["relu", "tanh"]).2.suggest_float
        "width" (-1) 21).2.suggest_float "height" (-101) 101).2)

/-- Modelled from the spec (§4.1): the final assignment of one define-by-run
invocation merges the handle's recorded suggestions with the returned
constant mapping. -/
def defineByRunAssignment (o : Oracle) : Assignment :=
  (define_by_run_func { oracle := o, recorded := [] }).2.recorded ++
    ((define_by_run_func { oracle := o, recorded := [] }).1.getD [])

def oracleW : Oracle :=
  { pickCat := fun _ cs => cs.headD "", pickFloat := fun _ lo _ => lo }

/-- Helper for the `objective` loop: if no step in the window makes the base of
the reciprocal zero, the loop does not raise, its reports carry the step
numbers `start, start+1, …` in order, and every reported score is the value of
`evaluate` at that step. -/
theorem objectiveLoop_spec (width height : ℚ) (a : String) :
    ∀ (n start : Nat),
      (∀ i, start ≤ i → i < start + n → (1/10 + width * (i : ℚ) / 100 : ℚ) ≠ 0) →
      (objectiveLoop width height a n start).2 = false ∧
      (objectiveLoop width height a n start).1.map Prod.fst = List.range' start n ∧
      ∀ p ∈ (objectiveLoop width height a n start).1,
        evaluate (p.1 : ℚ) width height a = some p.2 := by
  intro n
  induction n with
  | zero => intro start _; simp [objectiveLoop]
  | succ n ih =>
    intro start h
    have hstart : (1/10 + width * (start : ℚ) / 100 : ℚ) ≠ 0 :=
      h start (le_refl _) (by omega)
    have heval : evaluate (start : ℚ) width height a =
        some ((1/10 + width * (start : ℚ) / 100)⁻¹ + height * (1/10) +
          (if a = "relu" then 10 else 0)) := by
      unfold evaluate
      rw [if_neg hstart]
    have ih' := ih (start + 1) (fun i h1 h2 => h i (by omega) (by omega))
    simp only [objectiveLoop, heval, List.map_cons, List.mem_cons]
    refine ⟨ih'.1, ?_, ?_⟩
    · have : List.range' start (n + 1) = start :: List.range' (start + 1) n := rfl
      rw [this]
      simp [ih'.2.1]
    · intro p hp
      rcases hp with hp | hp
      · subst hp; exact heval
      · exact ih'.2.2 p hp

/-- Claim C10 (counterexample): with config `steps = 11`, `width = -1`,
`height = 0`, `activation = "tanh"` (reachable under the define-by-run "tanh"
branch), the objective raises `ZeroDivisionError` at step 10 and emits only 10
reports, not the 11 the claim requires. -/
theorem C10_counterexample :
    (objectiveRun 11 (-1) 0 "tanh").1.length = 10 ∧
      (objectiveRun 11 (-1) 0 "tanh").2 = true :=
  ⟨by with_unfolding_all rfl, by with_unfolding_all rfl⟩

/-- Claim C10 (amended): for every config whose `steps` entry is a non-negative
integer `n` and for which no step `i < n` zeroes the base `0.1 + width*i/100`
of the reciprocal in `evaluate` (as holds e.g. for all `width ≥ 0`), the
objective function emits exactly `n` metric reports without raising, the i-th
report (0-based) maps "iterations" to `i` and "mean_loss" to
`evaluate(i, width, height, activation)`, and the "iterations" values are
strictly increasing. -/
theorem C10_objective_reports (n : Nat) (width height : ℚ) (a : String)
    (h : ∀ i, i < n → (1/10 + width * (i : ℚ) / 100 : ℚ) ≠ 0) :
    (objectiveRun n width height a).2 = false ∧
    (objectiveRun n width height a).1.map Prod.fst = List.range n ∧
    ∀ p ∈ (objectiveRun n width height a).1,
      evaluate (p.1 : ℚ) width height a = some p.2 := by
  have := objectiveLoop_spec width height a n 0 (fun i _ h2 => h i (by omega))
  rw [List.range_eq_range']
  exact this

theorem C10_objective_reports_witness :
    (∀ i : Nat, i < 2 → (1/10 + 1 * (i : ℚ) / 100 : ℚ) ≠ 0) ∧
      ((objectiveRun 2 1 0 "tanh").2 = false ∧
       (objectiveRun 2 1 0 "tanh").1.map Prod.fst = List.range 2 ∧
       ∀ p ∈ (objectiveRun 2 1 0 "tanh").1,
         evaluate (p.1 : ℚ) 1 0 "tanh" = some p.2) := by
  have hhyp : ∀ i : Nat, i < 2 → (1/10 + 1 * (i : ℚ) / 100 : ℚ) ≠ 0 :=
    fun i _ => by positivity
  exact ⟨hhyp, C10_objective_reports 2 1 0 "tanh" hhyp⟩

/-- Claim C8: the `activation` argument of `evaluate` contributes exactly an
additive boost of 10 when it equals "relu" and 0 otherwise: for every step,
width and height, `evaluate step width height "relu"` equals
`evaluate step width height a` plus 10 for any `a ≠ "relu"` (and the two calls
raise in exactly the same cases). -/
theorem C8_relu_boost (step width height : ℚ) (a : String) (ha : a ≠ "relu") :
    evaluate step width height "relu" =
      (evaluate step width height a).map (· + 10) := by
  unfold evaluate
  by_cases hb : (1/10 + width * step / 100 : ℚ) = 0
  · rw [if_pos hb, if_pos hb]
    rfl
  · rw [if_neg hb, if_neg hb, if_neg ha, if_pos (rfl : ("relu" : String) = "relu")]
    rw [Option.map_some']
    congr 1
    ring

theorem C8_relu_boost_witness :
    ("tanh" ≠ "relu") ∧
      evaluate 1 2 3 "relu" = (evaluate 1 2 3 "tanh").map (· + 10) :=
  ⟨by decide, C8_relu_boost 1 2 3 "tanh" (by decide)⟩

/-- Claim C9: under the static search space (`width ∈ [0, 20]`, any height,
any activation) and non-negative step, the base `0.1 + width*step/100` of the
reciprocal computed by `evaluate` is at least `0.1`, hence nonzero, so
`evaluate` never raises a division-by-zero error; whereas `width = -1` with
`step = 10` (reachable only under the define-by-run "tanh" branch) makes the
base zero and `evaluate` raise. -/
theorem C9_no_division_by_zero :
    (∀ (step width height : ℚ) (a : String), 0 ≤ width → width ≤ 20 → 0 ≤ step →
      (1/10 : ℚ) ≤ 1/10 + width * step / 100 ∧
        (evaluate step width height a).isSome = true) ∧
    ∀ (height : ℚ) (a : String), evaluate 10 (-1) height a = none := by
  constructor
  · intro step width height a hw0 _ hs
    have h1 : (0 : ℚ) ≤ width * step := mul_nonneg hw0 hs
    have h2 : (0 : ℚ) ≤ width * step / 100 := div_nonneg h1 (by norm_num)
    have hbase : (1/10 : ℚ) ≤ 1/10 + width * step / 100 := by linarith
    refine ⟨hbase, ?_⟩
    have hne : (1/10 + width * step / 100 : ℚ) ≠ 0 := by
      intro h0
      rw [h0] at hbase
      norm_num at hbase
    unfold evaluate
    rw [if_neg hne]
    rfl
  · intro height a
    have h0 : (1/10 + (-1) * (10 : ℚ) / 100 : ℚ) = 0 := by norm_num
    unfold evaluate
    rw [if_pos h0]

theorem C9_no_division_by_zero_witness :
    ((0:ℚ) ≤ 5 ∧ (5:ℚ) ≤ 20 ∧ (0:ℚ) ≤ 3) ∧
      ((1/10 : ℚ) ≤ 1/10 + 5 * 3 / 100 ∧ (evaluate 3 5 7 "relu").isSome = true) :=
  ⟨⟨by norm_num, by norm_num, by norm_num⟩,
    C9_no_division_by_zero.1 3 5 7 "relu" (by norm_num) (by norm_num) (by norm_num)⟩

theorem Outcome.toStatus_isTerminal (o : Outcome) : o.toStatus.isTerminal = true := by
  cases o <;> rfl

theorem Outcome.toStatus_ne_running (o : Outcome) : o.toStatus ≠ Status.running := by
  cases o <;> simp [Outcome.toStatus]

/-- Full case analysis of `suggest`. -/
theorem suggest_cases (s : State) :
    (s.cfg.budget ≤ runningCount s ∧ suggest s = (none, s)) ∨
    (runningCount s < s.cfg.budget ∧ s.initRemaining = [] ∧
      s.cfg.strategy s.stratIdx = none ∧ suggest s = (none, s)) ∨
    (runningCount s < s.cfg.budget ∧ ∃ a rest, s.initRemaining = a :: rest ∧
      suggest s = (some (freshId s, a), { addTrial s a with initRemaining := rest })) ∨
    (runningCount s < s.cfg.budget ∧ s.initRemaining = [] ∧
      ∃ a, s.cfg.strategy s.stratIdx = some a ∧
        suggest s = (some (freshId s, a), { addTrial s a with stratIdx := s.stratIdx + 1 })) := by
  by_cases hfull : s.cfg.budget ≤ runningCount s
  · exact Or.inl ⟨hfull, by unfold suggest; rw [if_pos hfull]⟩
  · have hlt : runningCount s < s.cfg.budget := Nat.lt_of_not_le hfull
    cases hIR : s.initRemaining with
    | cons a rest =>
      refine Or.inr (Or.inr (Or.inl ⟨hlt, a, rest, rfl, ?_⟩))
      unfold suggest
      rw [if_neg hfull, hIR]
    | nil =>
      cases hstrat : s.cfg.strategy s.stratIdx with
      | none =>
        refine Or.inr (Or.inl ⟨hlt, rfl, rfl, ?_⟩)
        unfold suggest
        rw [if_neg hfull, hIR, hstrat]
      | some a =>
        refine Or.inr (Or.inr (Or.inr ⟨hlt, rfl, a, rfl, ?_⟩))
        unfold suggest
        rw [if_neg hfull, hIR, hstrat]

theorem suggest_of_full (s : State) (h : s.cfg.budget ≤ runningCount s) :
    suggest s = (none, s) := by
  unfold suggest
  rw [if_pos h]

theorem report_eq_error (s : State) (tid : Nat) (metrics : MetricMap)
    (h : findTrial s tid = none) : report s tid metrics = .error .unknownTrial := by
  unfold report
  rw [h]

theorem complete_eq_error (s : State) (tid : Nat) (o : Outcome)
    (h : findTrial s tid = none) : complete s tid o = .error .unknownTrial := by
  unfold complete
  rw [h]

theorem report_eq_ok (s : State) (tid : Nat) (metrics : MetricMap) (t : TrialRec)
    (h : findTrial s tid = some t) :
    report s tid metrics = .ok { s with
      trials := s.trials.map fun u =>
        if u.id = tid then { u with reports := u.reports ++ [metrics] } else u,
      best := updateBest s.best s.cfg.objectives metrics t.assignment } := by
  unfold report
  rw [h]

theorem complete_eq_of_terminal (s : State) (tid : Nat) (o : Outcome) (t : TrialRec)
    (h : findTrial s tid = some t) (hterm : t.status.isTerminal = true) :
    complete s tid o = .ok s := by
  unfold complete
  rw [h]
  simp [hterm]

theorem complete_eq_of_active (s : State) (tid : Nat) (o : Outcome) (t : TrialRec)
    (h : findTrial s tid = some t) (hterm : t.status.isTerminal = false) :
    complete s tid o = .ok { s with
      trials := s.trials.map fun u =>
        if u.id = tid then { u with status := o.toStatus } else u } := by
  unfold complete
  rw [h]
  simp [hterm]

theorem countP_map_eq_of_pred_eq {α : Type} (p : α → Bool) (f : α → α) (l : List α)
    (h : ∀ x ∈ l, p (f x) = p x) : (l.map f).countP p = l.countP p := by
  induction l with
  | nil => rfl
  | cons a l ih =>
    simp only [List.map_cons, List.countP_cons]
    rw [h a (List.mem_cons_self a l), ih fun x hx => h x (List.mem_cons_of_mem a hx)]

theorem countP_map_le_of_pred_imp {α : Type} (p : α → Bool) (f : α → α) (l : List α)
    (h : ∀ x ∈ l, p (f x) = true → p x = true) : (l.map f).countP p ≤ l.countP p := by
  induction l with
  | nil => exact Nat.le_refl _
  | cons a l ih =>
    simp only [List.map_cons, List.countP_cons]
    have h1 := ih fun x hx hpx => h x (List.mem_cons_of_mem a hx) hpx
    by_cases hfa : p (f a) = true
    · rw [if_pos hfa, if_pos (h a (List.mem_cons_self a l) hfa)]
      omega
    · rw [if_neg hfa]
      have : (if p a = true then 1 else 0) ≤ 1 := by split <;> omega
      omega

theorem runningCount_eq_of_trials_eq (s1 s2 : State) (h : s1.trials = s2.trials) :
    runningCount s1 = runningCount s2 := by
  unfold runningCount
  rw [h]

theorem runningCount_addTrial (s : State) (a : Assignment) :
    runningCount (addTrial s a) = runningCount s + 1 := by
  unfold runningCount addTrial
  simp [List.countP_append, List.countP_cons]

theorem runningCount_report_ok (s s1 : State) (tid : Nat) (metrics : MetricMap)
    (h : report s tid metrics = .ok s1) : runningCount s1 = runningCount s := by
  cases hf : findTrial s tid with
  | none => rw [report_eq_error s tid metrics hf] at h; exact absurd h (by simp)
  | some t =>
    rw [report_eq_ok s tid metrics t hf] at h
    injection h with h
    subst h
    exact countP_map_eq_of_pred_eq _ _ _ fun u _ => by
      by_cases hu : u.id = tid <;> simp [hu]

theorem report_ok_cfg (s s1 : State) (tid : Nat) (metrics : MetricMap)
    (h : report s tid metrics = .ok s1) : s1.cfg = s.cfg := by
  cases hf : findTrial s tid with
  | none => rw [report_eq_error s tid metrics hf] at h; exact absurd h (by simp)
  | some t =>
    rw [report_eq_ok s tid metrics t hf] at h
    injection h with h
    subst h
    rfl

theorem runningCount_complete_ok (s s1 : State) (tid : Nat) (o : Outcome)
    (h : complete s tid o = .ok s1) : runningCount s1 ≤ runningCount s := by
  cases hf : findTrial s tid with
  | none => rw [complete_eq_error s tid o hf] at h; exact absurd h (by simp)
  | some t =>
    by_cases hterm : t.status.isTerminal = true
    · rw [complete_eq_of_terminal s tid o t hf hterm] at h
      injection h with h
      subst h
      exact Nat.le_refl _
    · rw [complete_eq_of_active s tid o t hf (by simpa using hterm)] at h
      injection h with h
      subst h
      exact countP_map_le_of_pred_imp _ _ _ fun u _ hpu => by
        by_cases hu : u.id = tid
        · rw [if_pos hu] at hpu
          simp only [decide_eq_true_eq] at hpu
          exact absurd hpu (Outcome.toStatus_ne_running o)
        · rw [if_neg hu] at hpu
          exact hpu

theorem complete_ok_cfg (s s1 : State) (tid : Nat) (o : Outcome)
    (h : complete s tid o = .ok s1) : s1.cfg = s.cfg := by
  cases hf : findTrial s tid with
  | none => rw [complete_eq_error s tid o hf] at h; exact absurd h (by simp)
  | some t =>
    by_cases hterm : t.status.isTerminal = true
    · rw [complete_eq_of_terminal s tid o t hf hterm] at h
      injection h with h
      subst h
      rfl
    · rw [complete_eq_of_active s tid o t hf (by simpa using hterm)] at h
      injection h with h
      subst h
      rfl

theorem suggest_snd_cfg (s : State) : (suggest s).2.cfg = s.cfg := by
  rcases suggest_cases s with ⟨_, heq⟩ | ⟨_, _, _, heq⟩ | ⟨_, a, rest, _, heq⟩ |
    ⟨_, _, a, _, heq⟩ <;> rw [heq] <;> rfl

theorem stepOp_cfg (s : State) (op : Op) : (stepOp s op).cfg = s.cfg := by
  cases op with
  | suggest => exact suggest_snd_cfg s
  | report tid metrics =>
    show (match report s tid metrics with
      | .ok s1 => s1
      | .error _ => s).cfg = s.cfg
    cases hr : report s tid metrics with
    | error e => rfl
    | ok s1 => exact report_ok_cfg s s1 tid metrics hr
  | complete tid o =>
    show (match complete s tid o with
      | .ok s1 => s1
      | .error _ => s).cfg = s.cfg
    cases hr : complete s tid o with
    | error e => rfl
    | ok s1 => exact complete_ok_cfg s s1 tid o hr

theorem run_cfg (s : State) (ops : List Op) : (run s ops).cfg = s.cfg := by
  induction ops generalizing s with
  | nil => rfl
  | cons op ops ih => rw [run, List.foldl_cons, ← run, ih, stepOp_cfg]

theorem runningCount_stepOp_le (s : State) (op : Op)
    (h : runningCount s ≤ s.cfg.budget) :
    runningCount (stepOp s op) ≤ s.cfg.budget := by
  cases op with
  | suggest =>
    show runningCount (suggest s).2 ≤ s.cfg.budget
    rcases suggest_cases s with ⟨_, heq⟩ | ⟨_, _, _, heq⟩ |
      ⟨hlt, a, rest, _, heq⟩ | ⟨hlt, _, a, _, heq⟩
    · rw [heq]; exact h
    · rw [heq]; exact h
    · rw [heq]
      have : runningCount { addTrial s a with initRemaining := rest } =
          runningCount (addTrial s a) := runningCount_eq_of_trials_eq _ _ rfl
      rw [this, runningCount_addTrial]
      omega
    · rw [heq]
      have : runningCount { addTrial s a with stratIdx := s.stratIdx + 1 } =
          runningCount (addTrial s a) := runningCount_eq_of_trials_eq _ _ rfl
      rw [this, runningCount_addTrial]
      omega
  | report tid metrics =>
    show runningCount (match report s tid metrics with
      | .ok s1 => s1
      | .error _ => s) ≤ s.cfg.budget
    cases hr : report s tid metrics with
    | error e => exact h
    | ok s1 =>
      show runningCount s1 ≤ s.cfg.budget
      rw [runningCount_report_ok s s1 tid metrics hr]
      exact h
  | complete tid o =>
    show runningCount (match complete s tid o with
      | .ok s1 => s1
      | .error _ => s) ≤ s.cfg.budget
    cases hc : complete s tid o with
    | error e => exact h
    | ok s1 =>
      show runningCount s1 ≤ s.cfg.budget
      exact Nat.le_trans (runningCount_complete_ok s s1 tid o hc) h

theorem runningCount_run_le (s : State) (ops : List Op) :
    runningCount s ≤ s.cfg.budget → runningCount (run s ops) ≤ s.cfg.budget := by
  induction ops generalizing s with
  | nil => exact fun h => h
  | cons op ops ih =>
    intro h
    rw [run, List.foldl_cons, ← run]
    have hcfg : (stepOp s op).cfg = s.cfg := stepOp_cfg s op
    have := ih (stepOp s op) (by rw [hcfg]; exact runningCount_stepOp_le s op h)
    rwa [hcfg] at this

theorem runningCount_stepOp_of_full (s : State) (op : Op)
    (hop : op.isComplete = false) (hfull : s.cfg.budget ≤ runningCount s) :
    runningCount (stepOp s op) = runningCount s := by
  cases op with
  | suggest =>
    show runningCount (suggest s).2 = runningCount s
    rw [suggest_of_full s hfull]
  | report tid metrics =>
    show runningCount (match report s tid metrics with
      | .ok s1 => s1
      | .error _ => s) = runningCount s
    cases hr : report s tid metrics with
    | error e => rfl
    | ok s1 =>
      show runningCount s1 = runningCount s
      exact runningCount_report_ok s s1 tid metrics hr
  | complete tid o => exact absurd hop (by simp [Op.isComplete])

theorem runningCount_run_of_full (s : State) (ops : List Op) :
    (∀ op ∈ ops, op.isComplete = false) → s.cfg.budget ≤ runningCount s →
    s.cfg.budget ≤ runningCount (run s ops) := by
  induction ops generalizing s with
  | nil => exact fun _ hfull => hfull
  | cons op ops ih =>
    intro hnoc hfull
    rw [run, List.foldl_cons, ← run]
    have h1 : runningCount (stepOp s op) = runningCount s :=
      runningCount_stepOp_of_full s op (hnoc op (List.mem_cons_self op ops)) hfull
    have h2 : (stepOp s op).cfg = s.cfg := stepOp_cfg s op
    have := ih (stepOp s op) (fun o ho => hnoc o (List.mem_cons_of_mem op ho))
      (by rw [h2, h1]; exact hfull)
    rwa [h2] at this

/-- Claim C1: for every sequence of `suggest`/`report`/`complete` calls on a
coordinator constructed with ConcurrencyBudget `budget`, the number of trials
in "running" state never exceeds the budget; `suggest` returns `None` whenever
the running-trial count already equals the budget; and from a state whose
running count has reached the budget, `suggest` still returns `None` after any
further sequence of calls that contains no `complete` — only a `complete` can
free a slot and let a `suggest` succeed. -/
theorem C1_concurrency_budget :
    (∀ (cfg : Config) (ops : List Op),
      runningCount (run (State.init cfg) ops) ≤ cfg.budget) ∧
    (∀ s : State, runningCount s = s.cfg.budget → (suggest s).1 = none) ∧
    (∀ (s : State) (ops : List Op), s.cfg.budget ≤ runningCount s →
      (∀ op ∈ ops, op.isComplete = false) → (suggest (run s ops)).1 = none) := by
  refine ⟨fun cfg ops => ?_, fun s h => ?_, fun s ops hfull hnoc => ?_⟩
  · exact runningCount_run_le (State.init cfg) ops (Nat.zero_le _)
  · rw [suggest_of_full s (Nat.le_of_eq h.symm)]
  · have hinv : s.cfg.budget ≤ runningCount (run s ops) :=
      runningCount_run_of_full s ops hnoc hfull
    rw [suggest_of_full (run s ops) (by rw [run_cfg]; exact hinv)]

theorem C1_concurrency_budget_witness :
    ((run (State.init cfgA) [.suggest, .suggest]).cfg.budget ≤
        runningCount (run (State.init cfgA) [.suggest, .suggest]) ∧
      (∀ op ∈ ([Op.report 0 [("m", 5)]] : List Op), op.isComplete = false)) ∧
    (suggest (run (run (State.init cfgA) [.suggest, .suggest])
        [Op.report 0 [("m", 5)]])).1 = none := by
  have h1 : (run (State.init cfgA) [.suggest, .suggest]).cfg.budget ≤
      runningCount (run (State.init cfgA) [.suggest, .suggest]) :=
    of_decide_eq_true (by with_unfolding_all rfl)
  have h2 : ∀ op ∈ ([Op.report 0 [("m", 5)]] : List Op), op.isComplete = false := by
    intro op hop
    rw [List.mem_singleton] at hop
    subst hop
    rfl
  exact ⟨⟨h1, h2⟩, C1_concurrency_budget.2.2 _ _ h1 h2⟩

theorem map_comp_eq {α β : Type} (f : α → α) (g : α → β) (l : List α)
    (h : ∀ x ∈ l, g (f x) = g x) : (l.map f).map g = l.map g := by
  induction l with
  | nil => rfl
  | cons a l ih =>
    simp only [List.map_cons]
    rw [h a (List.mem_cons_self a l), ih fun x hx => h x (List.mem_cons_of_mem a hx)]

theorem report_ok_fields (s s1 : State) (tid : Nat) (metrics : MetricMap)
    (h : report s tid metrics = .ok s1) :
    issued s1 = issued s ∧ s1.initRemaining = s.initRemaining ∧
      s1.stratIdx = s.stratIdx := by
  cases hf : findTrial s tid with
  | none => rw [report_eq_error s tid metrics hf] at h; exact absurd h (by simp)
  | some t =>
    rw [report_eq_ok s tid metrics t hf] at h
    injection h with h
    subst h
    refine ⟨?_, rfl, rfl⟩
    exact map_comp_eq _ _ _ fun u _ => by
      by_cases hu : u.id = tid <;> simp [hu]

theorem complete_ok_fields (s s1 : State) (tid : Nat) (o : Outcome)
    (h : complete s tid o = .ok s1) :
    issued s1 = issued s ∧ s1.initRemaining = s.initRemaining ∧
      s1.stratIdx = s.stratIdx := by
  cases hf : findTrial s tid with
  | none => rw [complete_eq_error s tid o hf] at h; exact absurd h (by simp)
  | some t =>
    by_cases hterm : t.status.isTerminal = true
    · rw [complete_eq_of_terminal s tid o t hf hterm] at h
      injection h with h
      subst h
      exact ⟨rfl, rfl, rfl⟩
    · rw [complete_eq_of_active s tid o t hf (by simpa using hterm)] at h
      injection h with h
      subst h
      refine ⟨?_, rfl, rfl⟩
      exact map_comp_eq _ _ _ fun u _ => by
        by_cases hu : u.id = tid <;> simp [hu]

theorem invFIFO_init (cfg : Config) : InvFIFO cfg (State.init cfg) := by
  refine ⟨rfl, 0, Nat.zero_le _, (List.drop_zero _).symm, rfl, ?_, fun h => absurd rfl h⟩
  intro i h
  have h0 : (State.init cfg).stratIdx = 0 := rfl
  rw [h0] at h
  exact absurd h (by omega)

theorem issued_addTrial (s : State) (a : Assignment) :
    issued (addTrial s a) = issued s ++ [a] := by
  unfold issued addTrial
  simp

theorem invFIFO_suggest (cfg : Config) (s : State) (h : InvFIFO cfg s) :
    InvFIFO cfg (suggest s).2 := by
  obtain ⟨hcfg, k, hk, hIR, hiss, hsome, hlast⟩ := h
  rcases suggest_cases s with ⟨_, heq⟩ | ⟨_, _, _, heq⟩ | ⟨_, a, rest, hIR2, heq⟩ |
    ⟨_, hIR2, a, hstrat, heq⟩
  · rw [heq]; exact ⟨hcfg, k, hk, hIR, hiss, hsome, hlast⟩
  · rw [heq]; exact ⟨hcfg, k, hk, hIR, hiss, hsome, hlast⟩
  · -- initial-points branch: the head of the queue is issued next
    rw [heq]
    have hdk : cfg.initPoints.drop k = a :: rest := hIR.symm.trans hIR2
    have hklt : k < cfg.initPoints.length := by
      by_contra hge
      rw [List.drop_eq_nil_of_le (by omega)] at hdk
      exact absurd hdk (by simp)
    have hidx0 : s.stratIdx = 0 := by
      by_contra hne0
      rw [hlast hne0, List.drop_length] at hdk
      exact absurd hdk (by simp)
    have hget : cfg.initPoints[k]? = some a := by
      have h0 : (cfg.initPoints.drop k)[0]? = cfg.initPoints[k + 0]? :=
        List.getElem?_drop _ _ _
      rw [Nat.add_zero, hdk, List.getElem?_cons_zero] at h0
      exact h0.symm
    refine ⟨hcfg, k + 1, by omega, ?_, ?_, ?_, ?_⟩
    · show rest = cfg.initPoints.drop (k + 1)
      have : cfg.initPoints.drop (k + 1) = (cfg.initPoints.drop k).drop 1 := by
        rw [List.drop_drop, Nat.add_comm]
      rw [this, hdk]
      rfl
    · have hiss2 : issued { addTrial s a with initRemaining := rest } =
          issued s ++ [a] := issued_addTrial s a
      have hsx : ({ addTrial s a with initRemaining := rest } : State).stratIdx = 0 :=
        hidx0
      show issued { addTrial s a with initRemaining := rest } =
        cfg.initPoints.take (k + 1) ++
          (List.range
            ({ addTrial s a with initRemaining := rest } : State).stratIdx).filterMap
            cfg.strategy
      rw [hiss2, hiss, hidx0, hsx]
      simp only [List.range_zero, List.filterMap_nil, List.append_nil]
      rw [List.take_succ, hget]
      rfl
    · show ∀ i, i < s.stratIdx → (cfg.strategy i).isSome = true
      exact hsome
    · show s.stratIdx ≠ 0 → k + 1 = cfg.initPoints.length
      rw [hidx0]
      exact fun hne0 => absurd rfl hne0
  · -- strategy branch: only reachable once the queue is drained
    rw [heq]
    rw [hcfg] at hstrat
    have hkl : k = cfg.initPoints.length := by
      have hdk : cfg.initPoints.drop k = [] := hIR.symm.trans hIR2
      have := List.drop_eq_nil_iff_le.mp hdk
      omega
    refine ⟨hcfg, k, hk, ?_, ?_, ?_, fun _ => hkl⟩
    · show s.initRemaining = cfg.initPoints.drop k
      exact hIR
    · have hiss2 : issued { addTrial s a with stratIdx := s.stratIdx + 1 } =
          issued s ++ [a] := issued_addTrial s a
      have hsx : ({ addTrial s a with stratIdx := s.stratIdx + 1 } : State).stratIdx =
          s.stratIdx + 1 := rfl
      show issued { addTrial s a with stratIdx := s.stratIdx + 1 } =
        cfg.initPoints.take k ++
          (List.range
            ({ addTrial s a with stratIdx := s.stratIdx + 1 } : State).stratIdx).filterMap
            cfg.strategy
      rw [hiss2, hiss, hsx, List.range_succ, List.filterMap_append, List.append_assoc]
      congr 2
      simp [hstrat]
    · show ∀ i, i < s.stratIdx + 1 → (cfg.strategy i).isSome = true
      intro i hi
      by_cases hlt : i < s.stratIdx
      · exact hsome i hlt
      · have : i = s.stratIdx := by omega
        rw [this, hstrat]
        rfl

theorem invFIFO_stepOp (cfg : Config) (s : State) (op : Op) (h : InvFIFO cfg s) :
    InvFIFO cfg (stepOp s op) := by
  cases op with
  | suggest => exact invFIFO_suggest cfg s h
  | report tid metrics =>
    show InvFIFO cfg (match report s tid metrics with
      | .ok s1 => s1
      | .error _ => s)
    cases hr : report s tid metrics with
    | error e => exact h
    | ok s1 =>
      show InvFIFO cfg s1
      obtain ⟨hcfg, k, hk, hIR, hiss, hsome, hlast⟩ := h
      obtain ⟨h1, h2, h3⟩ := report_ok_fields s s1 tid metrics hr
      exact ⟨(report_ok_cfg s s1 tid metrics hr).trans hcfg, k, hk, h2.trans hIR,
        by rw [h1, h3]; exact hiss, by rw [h3]; exact hsome, by rw [h3]; exact hlast⟩
  | complete tid o =>
    show InvFIFO cfg (match complete s tid o with
      | .ok s1 => s1
      | .error _ => s)
    cases hc : complete s tid o with
    | error e => exact h
    | ok s1 =>
      show InvFIFO cfg s1
      obtain ⟨hcfg, k, hk, hIR, hiss, hsome, hlast⟩ := h
      obtain ⟨h1, h2, h3⟩ := complete_ok_fields s s1 tid o hc
      exact ⟨(complete_ok_cfg s s1 tid o hc).trans hcfg, k, hk, h2.trans hIR,
        by rw [h1, h3]; exact hiss, by rw [h3]; exact hsome, by rw [h3]; exact hlast⟩

theorem invFIFO_run (cfg : Config) (s : State) (ops : List Op) (h : InvFIFO cfg s) :
    InvFIFO cfg (run s ops) := by
  induction ops generalizing s with
  | nil => exact h
  | cons op ops ih =>
    rw [run, List.foldl_cons, ← run]
    exact ih (stepOp s op) (invFIFO_stepOp cfg s op h)

/-- Claim C3: when the coordinator is constructed with a non-empty
initial-points list and budget ≥ 1, after any sequence of calls the issued
assignments are a take-prefix of the initial-points list (FIFO order) followed
by strategy outputs, and the strategy has been consulted (`stratIdx ≠ 0`) only
if the entire initial-points queue was issued first. -/
theorem C3_initial_points_fifo (cfg : Config) (ops : List Op)
    (hne : cfg.initPoints ≠ []) (hb : 1 ≤ cfg.budget) :
    ∃ k, k ≤ cfg.initPoints.length ∧
      issued (run (State.init cfg) ops) =
        cfg.initPoints.take k ++
          (List.range (run (State.init cfg) ops).stratIdx).filterMap cfg.strategy ∧
      ((run (State.init cfg) ops).stratIdx ≠ 0 → k = cfg.initPoints.length) := by
  obtain ⟨_, k, hk, _, hiss, _, hlast⟩ := invFIFO_run cfg _ ops (invFIFO_init cfg)
  exact ⟨k, hk, hiss, hlast⟩

theorem C3_initial_points_fifo_witness :
    (cfgB.initPoints ≠ [] ∧ 1 ≤ cfgB.budget) ∧
      ∃ k, k ≤ cfgB.initPoints.length ∧
        issued (run (State.init cfgB) [.suggest, .complete 0 .completed, .suggest]) =
          cfgB.initPoints.take k ++
            (List.range (run (State.init cfgB)
              [.suggest, .complete 0 .completed, .suggest]).stratIdx).filterMap
              cfgB.strategy ∧
        ((run (State.init cfgB)
            [.suggest, .complete 0 .completed, .suggest]).stratIdx ≠ 0 →
          k = cfgB.initPoints.length) :=
  ⟨⟨by simp [cfgB], by simp [cfgB]⟩,
    C3_initial_points_fifo cfgB [.suggest, .complete 0 .completed, .suggest]
      (by simp [cfgB]) (by simp [cfgB])⟩

theorem find?_map_id_pres (l : List TrialRec) (f : TrialRec → TrialRec) (tid : Nat)
    (hid : ∀ t, (f t).id = t.id) :
    (l.map f).find? (fun t => decide (t.id = tid)) =
      (l.find? fun t => decide (t.id = tid)).map f := by
  induction l with
  | nil => rfl
  | cons a l ih =>
    by_cases ha : a.id = tid
    · simp [List.find?_cons, hid a, ha]
    · simp [List.find?_cons, hid a, ha, ih]

/-- Claim C4: `complete` is idempotent on terminal trials.  First: for any
trial already in a terminal status, `complete` with any outcome returns the
state unchanged (hence running count, best tracker and every trial's status
are identical) and raises no error.  Second: after any successful `complete`,
a repeated `complete` on the same trial id with the same or a different
outcome returns the state unchanged. -/
theorem C4_complete_idempotent :
    (∀ (s : State) (tid : Nat) (t : TrialRec) (o : Outcome),
      findTrial s tid = some t → t.status.isTerminal = true →
      complete s tid o = .ok s) ∧
    (∀ (s s1 : State) (tid : Nat) (o1 o2 : Outcome),
      complete s tid o1 = .ok s1 → complete s1 tid o2 = .ok s1) := by
  refine ⟨fun s tid t o hf hterm => complete_eq_of_terminal s tid o t hf hterm,
    fun s s1 tid o1 o2 h => ?_⟩
  cases hf : findTrial s tid with
  | none => rw [complete_eq_error s tid o1 hf] at h; exact absurd h (by simp)
  | some t =>
    have hpt : t.id = tid := by
      have := List.find?_some hf
      simpa using this
    by_cases hterm : t.status.isTerminal = true
    · rw [complete_eq_of_terminal s tid o1 t hf hterm] at h
      injection h with h
      subst h
      exact complete_eq_of_terminal s tid o2 t hf hterm
    · rw [complete_eq_of_active s tid o1 t hf (by simpa using hterm)] at h
      injection h with h
      subst h
      have hf1 : findTrial { s with
          trials := s.trials.map fun u =>
            if u.id = tid then { u with status := o1.toStatus } else u } tid =
          some { t with status := o1.toStatus } := by
        unfold findTrial at hf ⊢
        rw [find?_map_id_pres s.trials _ tid fun u => by
          by_cases hu : u.id = tid <;> simp [hu], hf]
        simp [hpt]
      exact complete_eq_of_terminal _ tid o2 _ hf1 (Outcome.toStatus_isTerminal o1)

theorem C4_complete_idempotent_witness :
    complete c4s0 0 .completed = .ok c4s1 ∧ complete c4s1 0 .errored = .ok c4s1 := by
  have h : complete c4s0 0 .completed = .ok c4s1 := by with_unfolding_all rfl
  exact ⟨h, C4_complete_idempotent.2 c4s0 c4s1 0 .completed .errored h⟩

/-- Claim C5: for a trial id never issued by `suggest` (no such trial in the
table — ids are issued only by `suggest` and never removed), `report` raises
`UnknownTrialError`, `complete` raises `UnknownTrialError`, and in both cases
the coordinator state — in particular the best-value tracker — is unchanged
(the engine-facing step keeps the caller's state on error). -/
theorem C5_unknown_trial (s : State) (tid : Nat) (metrics : MetricMap) (o : Outcome)
    (h : findTrial s tid = none) :
    report s tid metrics = .error .unknownTrial ∧
    complete s tid o = .error .unknownTrial ∧
    stepOp s (.report tid metrics) = s ∧
    stepOp s (.complete tid o) = s := by
  have h1 := report_eq_error s tid metrics h
  have h2 := complete_eq_error s tid o h
  refine ⟨h1, h2, ?_, ?_⟩
  · show (match report s tid metrics with
      | .ok s1 => s1
      | .error _ => s) = s
    rw [h1]
  · show (match complete s tid o with
      | .ok s1 => s1
      | .error _ => s) = s
    rw [h2]

theorem C5_unknown_trial_witness :
    findTrial (State.init cfgA) 5 = none ∧
      (report (State.init cfgA) 5 [("m", 1)] = .error .unknownTrial ∧
       complete (State.init cfgA) 5 .completed = .error .unknownTrial ∧
       stepOp (State.init cfgA) (.report 5 [("m", 1)]) = State.init cfgA ∧
       stepOp (State.init cfgA) (.complete 5 .completed) = State.init cfgA) := by
  have h : findTrial (State.init cfgA) 5 = none := rfl
  exact ⟨h, C5_unknown_trial _ 5 [("m", 1)] .completed h⟩

theorem improves_self (d : Dir) (v : ℚ) : improves d v v = false := by
  cases d <;> simp [improves]

theorem find?_map_replace (b : List ((String × Dir) × ℚ × Assignment))
    (key : String × Dir) (x : ℚ × Assignment) :
    (b.map fun e => if e.1 = key then (key, x) else e).find?
        (fun e => decide (e.1 = key)) =
      (b.find? fun e => decide (e.1 = key)).map fun _ => (key, x) := by
  induction b with
  | nil => rfl
  | cons a b ih =>
    by_cases ha : a.1 = key
    · simp [List.find?_cons, ha]
    · simp [List.find?_cons, ha, ih]

theorem bestLookup_updateBest1_keep (b : List ((String × Dir) × ℚ × Assignment))
    (m : String) (d : Dir) (v : ℚ) (a : Assignment) (v0 : ℚ) (a0 : Assignment)
    (h : bestLookup b m d = some (v0, a0)) (himp : improves d v v0 = false) :
    bestLookup (updateBest1 b m d v a) m d = some (v0, a0) := by
  simp only [updateBest1, h, himp, Bool.false_eq_true, if_false]

theorem bestLookup_updateBest1_replace (b : List ((String × Dir) × ℚ × Assignment))
    (m : String) (d : Dir) (v : ℚ) (a : Assignment) (v0 : ℚ) (a0 : Assignment)
    (h : bestLookup b m d = some (v0, a0)) (himp : improves d v v0 = true) :
    bestLookup (updateBest1 b m d v a) m d = some (v, a) := by
  simp only [updateBest1, h, himp, if_true]
  unfold bestLookup at h ⊢
  rw [find?_map_replace]
  cases hb : b.find? fun e => decide (e.1 = (m, d)) with
  | none => rw [hb] at h; exact absurd h (by simp)
  | some e => rfl

/-- Claim C6: the best-value tracker replaces its incumbent only on strict
improvement in the objective's direction (in particular a tie is not an
improvement, so ties keep the earlier incumbent); consequently, in the
concrete run where three trials report values 5, 3 and 8 on metric "m" and
complete, `best "m" minimize` returns the parameter assignment of the trial
that reported 3, and `best` returns `none` for a metric no trial reported. -/
theorem C6_best_tracker :
    (∀ (d : Dir) (v : ℚ), improves d v v = false) ∧
    (∀ (b : List ((String × Dir) × ℚ × Assignment)) (m : String) (d : Dir)
        (v : ℚ) (a : Assignment) (v0 : ℚ) (a0 : Assignment),
      bestLookup b m d = some (v0, a0) → improves d v v0 = false →
      bestLookup (updateBest1 b m d v a) m d = some (v0, a0)) ∧
    (∀ (b : List ((String × Dir) × ℚ × Assignment)) (m : String) (d : Dir)
        (v : ℚ) (a : Assignment) (v0 : ℚ) (a0 : Assignment),
      bestLookup b m d = some (v0, a0) → improves d v v0 = true →
      bestLookup (updateBest1 b m d v a) m d = some (v, a)) ∧
    best (run (State.init cfgA)
      [.suggest, .suggest,
       .report 0 [("m", 5)], .report 1 [("m", 3)],
       .complete 0 .completed, .complete 1 .completed,
       .suggest, .report 2 [("m", 8)], .complete 2 .completed]) "m" .minimize =
      some [("p", Val.num 1)] ∧
    best (run (State.init cfgA)
      [.suggest, .suggest,
       .report 0 [("m", 5)], .report 1 [("m", 3)],
       .complete 0 .completed, .complete 1 .completed,
       .suggest, .report 2 [("m", 8)], .complete 2 .completed]) "other" .minimize =
      none := by
  refine ⟨improves_self, bestLookup_updateBest1_keep, bestLookup_updateBest1_replace,
    ?_, ?_⟩
  · with_unfolding_all rfl
  · with_unfolding_all rfl

theorem C6_best_tracker_witness :
    (bestLookup [(("m", Dir.minimize), (5, [("p", Val.num 0)]))] "m" .minimize =
        some (5, [("p", Val.num 0)]) ∧
      improves .minimize (5 : ℚ) 5 = false) ∧
    bestLookup (updateBest1 [(("m", Dir.minimize), (5, [("p", Val.num 0)]))]
        "m" .minimize 5 [("p", Val.num 9)]) "m" .minimize =
      some (5, [("p", Val.num 0)]) := by
  have h1 : bestLookup [(("m", Dir.minimize), (5, [("p", Val.num 0)]))] "m" .minimize =
      some (5, [("p", Val.num 0)]) := by with_unfolding_all rfl
  have h2 : improves .minimize (5 : ℚ) 5 = false := by with_unfolding_all rfl
  exact ⟨⟨h1, h2⟩, C6_best_tracker.2.1 _ "m" .minimize 5 [("p", Val.num 9)] 5 _ h1 h2⟩

/-- Claim C2 (counterexample): in the claim's own scenario, under the claim's
own domination rule, the trial with (loss=1, gain=5) is dominated by neither
of the other two trials, so the Pareto front contains all three trials — not
exactly the two the claim lists. -/
theorem C2_counterexample :
    sD.trials.map fitnessOf =
      [[("loss", 1), ("gain", 5)], [("loss", 2), ("gain", 9)],
        [("loss", 1/2), ("gain", 1)]] ∧
    (paretoFront sD).map (fun t => t.id) = [0, 1, 2] ∧
    dominates cfgD.objectives [("loss", 2), ("gain", 9)] [("loss", 1), ("gain", 5)] =
      false ∧
    dominates cfgD.objectives [("loss", 1/2), ("gain", 1)] [("loss", 1), ("gain", 5)] =
      false :=
  ⟨by with_unfolding_all rfl, by with_unfolding_all rfl,
    by with_unfolding_all rfl, by with_unfolding_all rfl⟩

/-- Claim C2 (amended): in that scenario no trial dominates any other under
the stated rule, so the Pareto-front query returns exactly the set of all
three trials. -/
theorem C2_pareto_front : paretoFront sD = sD.trials ∧ sD.trials.length = 3 :=
  ⟨by with_unfolding_all rfl, by with_unfolding_all rfl⟩

/-- Claim C7: every invocation of the define-by-run function (served by any
optimizer respecting the request domains) produces an assignment whose key
set is exactly {activation, width, height, steps}, consistent with the branch
taken: on "relu" the width comes from [0, 20] and the height from
[-100, 100]; on "tanh" the width comes from [-1, 21] and the height from
[-101, 101]. -/
theorem C7_define_by_run (o : Oracle) (hv : OracleValid o) :
    (defineByRunAssignment o).map Prod.fst =
      ["activation", "width", "height", "steps"] ∧
    ((o.pickCat "activation" ["relu", "tanh"] = "relu" ∧
      defineByRunAssignment o =
        [("activation", Val.str "relu"),
         ("width", Val.num (o.pickFloat "width" 0 20)),
         ("height", Val.num (o.pickFloat "height" (-100) 100)),
         ("steps", Val.num 100)] ∧
      0 ≤ o.pickFloat "width" 0 20 ∧ o.pickFloat "width" 0 20 ≤ 20 ∧
      -100 ≤ o.pickFloat "height" (-100) 100 ∧
        o.pickFloat "height" (-100) 100 ≤ 100) ∨
     (o.pickCat "activation" ["relu", "tanh"] = "tanh" ∧
      defineByRunAssignment o =
        [("activation", Val.str "tanh"),
         ("width", Val.num (o.pickFloat "width" (-1) 21)),
         ("height", Val.num (o.pickFloat "height" (-101) 101)),
         ("steps", Val.num 100)] ∧
      -1 ≤ o.pickFloat "width" (-1) 21 ∧ o.pickFloat "width" (-1) 21 ≤ 21 ∧
      -101 ≤ o.pickFloat "height" (-101) 101 ∧
        o.pickFloat "height" (-101) 101 ≤ 101)) := by
  obtain ⟨hcat, hfloat⟩ := hv
  have hmem := hcat "activation" ["relu", "tanh"] (by simp)
  simp only [List.mem_cons, List.not_mem_nil, or_false] at hmem
  rcases hmem with hact | hact
  · have hassign : defineByRunAssignment o =
        [("activation", Val.str "relu"),
         ("width", Val.num (o.pickFloat "width" 0 20)),
         ("height", Val.num (o.pickFloat "height" (-100) 100)),
         ("steps", Val.num 100)] := by
      simp only [defineByRunAssignment, define_by_run_func, Handle.suggest_categorical,
        Handle.suggest_float, hact, if_true]
      simp
    refine ⟨by rw [hassign]; rfl, Or.inl ⟨hact, hassign, ?_, ?_, ?_, ?_⟩⟩
    · exact (hfloat "width" 0 20 (by norm_num)).1
    · exact (hfloat "width" 0 20 (by norm_num)).2
    · exact (hfloat "height" (-100) 100 (by norm_num)).1
    · exact (hfloat "height" (-100) 100 (by norm_num)).2
  · have hassign : defineByRunAssignment o =
        [("activation", Val.str "tanh"),
         ("width", Val.num (o.pickFloat "width" (-1) 21)),
         ("height", Val.num (o.pickFloat "height" (-101) 101)),
         ("steps", Val.num 100)] := by
      simp only [defineByRunAssignment, define_by_run_func, Handle.suggest_categorical,
        Handle.suggest_float, hact]
      simp
    refine ⟨by rw [hassign]; rfl, Or.inr ⟨hact, hassign, ?_, ?_, ?_, ?_⟩⟩
    · exact (hfloat "width" (-1) 21 (by norm_num)).1
    · exact (hfloat "width" (-1) 21 (by norm_num)).2
    · exact (hfloat "height" (-101) 101 (by norm_num)).1
    · exact (hfloat "height" (-101) 101 (by norm_num)).2

theorem oracleW_valid : OracleValid oracleW := by
  constructor
  · intro n cs hne
    cases cs with
    | nil => exact absurd rfl hne
    | cons a cs => exact List.mem_cons_self a cs
  · intro n lo hi hle
    exact ⟨le_refl lo, hle⟩

theorem C7_define_by_run_witness :
    OracleValid oracleW ∧
      ((defineByRunAssignment oracleW).map Prod.fst =
        ["activation", "width", "height", "steps"] ∧
      ((oracleW.pickCat "activation" ["relu", "tanh"] = "relu" ∧
        defineByRunAssignment oracleW =
          [("activation", Val.str "relu"),
           ("width", Val.num (oracleW.pickFloat "width" 0 20)),
           ("height", Val.num (oracleW.pickFloat "height" (-100) 100)),
           ("steps", Val.num 100)] ∧
        0 ≤ oracleW.pickFloat "width" 0 20 ∧ oracleW.pickFloat "width" 0 20 ≤ 20 ∧
        -100 ≤ oracleW.pickFloat "height" (-100) 100 ∧
          oracleW.pickFloat "height" (-100) 100 ≤ 100) ∨
       (oracleW.pickCat "activation" ["relu", "tanh"] = "tanh" ∧
        defineByRunAssignment oracleW =
          [("activation", Val.str "tanh"),
           ("width", Val.num (oracleW.pickFloat "width" (-1) 21)),
           ("height", Val.num (oracleW.pickFloat "height" (-101) 101)),
           ("steps", Val.num 100)] ∧
        -1 ≤ oracleW.pickFloat "width" (-1) 21 ∧
          oracleW.pickFloat "width" (-1) 21 ≤ 21 ∧
        -101 ≤ oracleW.pickFloat "height" (-101) 101 ∧
          oracleW.pickFloat "height" (-101) 101 ≤ 101))) :=
  ⟨oracleW_valid, C7_define_by_run oracleW oracleW_valid⟩

end Tune
